import Mathlib

/-!
Verification development for the `multi-tool-ai-agent` backend.

Shallow embedding of the Python sources:
  * `app/agent/tools.py`    — `TOOL_REGISTRY`, `TOOL_ALIASES`
  * `app/agent/executor.py` — `_find_best_matching_tool`, `execute_plan`
  * `app/agent/planner.py`  — `create_plan_rulebased`
  * `app/main.py`           — plan selection with LLM fallback, tool-call merging

Python strings are modelled as `List Char`.  `str.lower()` is modelled by
ASCII lowercasing (`Char.toLower`); every string constant appearing in the
registry, alias table and planner is ASCII, and both sides of every
comparison in the source are lowercased the same way.

The two registered analysis functions (`generate_summary_statistics`,
`detect_missing_values` in `app/agent/tools.py`) perform pandas I/O on the
uploaded file; they are modelled parametrically as functions
`F → Except Str Str` over an abstract file type `F`, where `Except.error e`
models the function raising an exception with message `e` — exactly the
two behaviours `execute_plan` distinguishes (`try`/`except Exception`).
-/

set_option autoImplicit false

namespace MultiToolAgent

/-- Python strings, modelled as lists of characters. -/
abbrev Str := List Char

/-- Turn a Lean string literal into the `Str` model. -/
def chars (x : String) : Str := x.data

/-- Model of Python `str.lower()` (ASCII; all compared constants are ASCII). -/
def pyLower (s : Str) : Str := s.map Char.toLower

/-- `leadEq needle hay` holds when `needle` occurs at the start of `hay`. -/
def leadEq : Str → Str → Bool
  | [], _ => true
  | _ :: _, [] => false
  | n :: ns, h :: hs => n == h && leadEq ns hs

/-- Model of Python `needle in hay` for strings: contiguous substring test. -/
def hasSub (needle : Str) : Str → Bool
  | [] => leadEq needle []
  | c :: rest => leadEq needle (c :: rest) || hasSub needle rest

/-!
### difflib.SequenceMatcher ratio

`SequenceMatcher(None, a, b).ratio()` is `2*M/T` where `T = len(a)+len(b)`
and `M` is the total size of the matching blocks: recursively, take the
longest matching block (of all maximal matching blocks, the one starting
earliest in `a`, then earliest in `b`) and recurse on the pieces to its left
and right.  No junk is involved here: the matcher is constructed with
`isjunk=None`, and autojunk only affects `b`, which is always one of the two
tool names (far shorter than the 200-character autojunk cutoff).
-/

/-- Length of the longest common prefix of two character lists. -/
def commonPrefixLen : Str → Str → Nat
  | a :: as, b :: bs => if a == b then commonPrefixLen as bs + 1 else 0
  | _, _ => 0

/-- Best `(j, k)` over blocks starting at positions `j, j+1, …` of a suffix
of `b`: `k` maximal, earliest `j` on ties. -/
def bestInB (aSuf : Str) : Str → Nat → Nat × Nat
  | [], _ => (0, 0)
  | bs@(_ :: bt), j =>
    let k := commonPrefixLen aSuf bs
    let rest := bestInB aSuf bt (j + 1)
    if rest.2 ≤ k then (j, k) else rest

/-- Best `(i, j, k)` over blocks starting at positions `i, i+1, …` of a
suffix of `a`: `k` maximal, earliest `i` then earliest `j` on ties. -/
def bestInA : Str → Nat → Str → Nat × Nat × Nat
  | [], _, _ => (0, 0, 0)
  | as@(_ :: at'), i, b =>
    let cur := bestInB as b 0
    let rest := bestInA at' (i + 1) b
    if rest.2.2 ≤ cur.2 then (i, cur.1, cur.2) else rest

/-- Longest matching block of `a` and `b` as `(i, j, k)`: `a[i:i+k] = b[j:j+k]`
with `k` maximal, ties broken by smallest `i`, then smallest `j` — the block
`find_longest_match` selects when there is no junk. -/
def bestBlock (a b : Str) : Nat × Nat × Nat := bestInA a 0 b

/-- Total size of the matching blocks, fuelled.  Each recursive call strictly
shortens the first list, so fuel `a.length + 1` always suffices. -/
def matchTotalF : Nat → Str → Str → Nat
  | 0, _, _ => 0
  | fuel + 1, a, b =>
    let m := bestBlock a b
    if m.2.2 = 0 then 0
    else
      matchTotalF fuel (a.take m.1) (b.take m.2.1) + m.2.2 +
        matchTotalF fuel (a.drop (m.1 + m.2.2)) (b.drop (m.2.1 + m.2.2))

/-- Total size of the matching blocks of `a` and `b`. -/
def matchTotal (a b : Str) : Nat := matchTotalF (a.length + 1) a b

/-- `SequenceMatcher(None, a, b).ratio()`, as an exact rational.
(`difflib._calculate_ratio`: `2*M/T` when `T ≠ 0`, else `1.0`.) -/
def ratioQ (a b : Str) : ℚ :=
  if a.length + b.length = 0 then 1
  else (2 * matchTotal a b : ℚ) / (a.length + b.length : ℚ)

/-!
### app/agent/tools.py — registry and aliases
-/

/-- First tool name in `TOOL_REGISTRY`. -/
def GEN_SUMMARY : Str := chars "Generate summary statistics"

/-- Second tool name in `TOOL_REGISTRY`. -/
def DETECT_MISSING : Str := chars "Detect missing values"

/-- A registry: association list from tool names to tool functions
(Python `dict` in insertion order). -/
abbrev Registry (F : Type) := List (Str × (F → Except Str Str))

/-- `TOOL_REGISTRY`, parametric in the two pandas-based analysis functions. -/
def TOOL_REGISTRY {F : Type} (generate_summary_statistics detect_missing_values :
    F → Except Str Str) : Registry F :=
  [(GEN_SUMMARY, generate_summary_statistics),
   (DETECT_MISSING, detect_missing_values)]

/-- `TOOL_ALIASES` from `app/agent/tools.py`, verbatim. -/
def TOOL_ALIASES : List (Str × List Str) :=
  [(GEN_SUMMARY,
     [chars "summary", chars "summarize", chars "stats", chars "statistics",
      chars "describe", chars "data stats", chars "profiling", chars "overview",
      chars "basic stats"]),
   (DETECT_MISSING,
     [chars "missing", chars "missing values", chars "null", chars "nan",
      chars "empty", chars "blank"])]

/-- First-match association lookup (Python `dict` access; keys are unique). -/
def assocGet {β : Type} : List (Str × β) → Str → Option β
  | [], _ => none
  | (k, v) :: rest, key => if k = key then some v else assocGet rest key

/-- `TOOL_ALIASES.get(tool_name, [])`. -/
def aliasesOf (toolName : Str) : List Str :=
  (assocGet TOOL_ALIASES toolName).getD []

/-!
### app/agent/executor.py — `_find_best_matching_tool`

The source iterates over `registry.keys()`; for each tool it first returns
the tool on an exact (lowercased) name match, otherwise scans the tool's
aliases keeping the longest alias that is a substring of the lowercased
step.  If the loop finishes with an alias winner it is returned; otherwise a
second loop keeps the tool with the highest `SequenceMatcher` ratio that is
at least the 0.5 threshold (strict improvement, so the earlier tool wins
ties).
-/

/-- Inner alias loop: `for alias in TOOL_ALIASES.get(tool_name, []): ...`,
threading `(best_alias_match, best_alias_len)`. -/
def aliasScan (stepLower tool : Str) : List Str → Option Str × Nat → Option Str × Nat
  | [], best => best
  | a :: as, (bm, bl) =>
    if hasSub a stepLower = true ∧ bl < a.length then
      aliasScan stepLower tool as (some tool, a.length)
    else
      aliasScan stepLower tool as (bm, bl)

/-- First loop over the registry keys: exact-match early return
(`Sum.inl`), else alias accumulation (`Sum.inr`). -/
def exactAliasLoop (stepLower : Str) : List Str → Option Str × Nat → Str ⊕ (Option Str × Nat)
  | [], best => Sum.inr best
  | t :: ts, best =>
    if stepLower = pyLower t then Sum.inl t
    else exactAliasLoop stepLower ts (aliasScan stepLower t (aliasesOf t) best)

/-- The 0.5 similarity threshold from the source. -/
def ratioThreshold : ℚ := 1 / 2

/-- Second loop: fuzzy matching by `SequenceMatcher` ratio, threading
`(best_match, best_score)` with `best_score` starting at `0.0`. -/
def fuzzyLoop (stepLower : Str) : List Str → Option Str × ℚ → Option Str
  | [], (bm, _) => bm
  | t :: ts, (bm, bs) =>
    let sim := ratioQ stepLower (pyLower t)
    if bs < sim ∧ ratioThreshold ≤ sim then fuzzyLoop stepLower ts (some t, sim)
    else fuzzyLoop stepLower ts (bm, bs)

/-- `_find_best_matching_tool(step, registry)` (registry passed as its key
list; tool names are non-empty, so Python truthiness of `best_alias_match`
is `Option.isSome`). -/
def find_best_matching_tool (step : Str) (keys : List Str) : Option Str :=
  if keys.isEmpty then none
  else
    let stepLower := pyLower step
    match exactAliasLoop stepLower keys (none, 0) with
    | Sum.inl t => some t
    | Sum.inr (some t, _) => some t
    | Sum.inr (none, _) => fuzzyLoop stepLower keys (none, 0)

/-!
### app/agent/executor.py — `execute_plan`

`execute_plan(plan, file)` loops over the plan; each iteration appends
exactly one record to `tool_calls` and, in every branch except the
"no matching tool" skip (which `continue`s without touching `result`),
assigns `result`.  The `file.file.seek(0)` call is an I/O effect with no
observable consequence in this model (the tool functions are opaque), and
the `arguments` field of every appended record is the empty dict, so it is
omitted from the record structure.
-/

/-- One entry of the `tool_calls` log (the `arguments` field is always `{}`
in the source and is omitted). -/
structure ToolCallRec where
  tool_name : Str
  status : Str
  reason : Option Str := none
  error : Option Str := none
  deriving DecidableEq, Repr

/-- The record appended when no tool matches a step. -/
def noMatchRec (step : Str) : ToolCallRec :=
  { tool_name := step
    status := chars "skipped"
    reason := some (chars "no_matching_tool")
    error := some (chars "Could not map \x27" ++ step ++ chars "\x27 to any available tool") }

/-- One iteration of the `execute_plan` loop body on `step`: the record that
is appended, and `some r` when the branch assigns `result := r` (the
"no matching tool" branch `continue`s without assigning). -/
def execStep {F : Type} (registry : Registry F) (file : Option F) (step : Str) :
    ToolCallRec × Option Str :=
  match find_best_matching_tool step (registry.map Prod.fst) with
  | none => (noMatchRec step, none)
  | some name =>
    match assocGet registry name with
    | none =>
      ({ tool_name := name, status := chars "error", error := some (chars "tool_not_found") },
       some (chars "Requested tool \x27" ++ name ++ chars "\x27 not available"))
    | some tool =>
      match file with
      | none =>
        ({ tool_name := name
           status := chars "skipped"
           reason := some (chars "no_file_provided")
           error := some (chars "Tool \x27" ++ name ++
             chars "\x27 requires a file, but none was provided") },
         some (chars "No file provided for " ++ name))
      | some f =>
        match tool f with
        | Except.ok output =>
          ({ tool_name := name, status := chars "success" }, some output)
        | Except.error e =>
          ({ tool_name := name, status := chars "error", error := some e },
           some (chars "Error running tool \x27" ++ name ++ chars "\x27: " ++ e))

/-- The `execute_plan` loop, threading the `result` accumulator. -/
def executePlanGo {F : Type} (registry : Registry F) (file : Option F) :
    List Str → Str → Str × List ToolCallRec
  | [], result => (result, [])
  | step :: rest, result =>
    let s := execStep registry file step
    let next := executePlanGo registry file rest (s.2.getD result)
    (next.1, s.1 :: next.2)

/-- `execute_plan(plan, file)`: returns `(result, tool_calls)` with `result`
initialised to the empty string. -/
def execute_plan {F : Type} (registry : Registry F) (plan : List Str) (file : Option F) :
    Str × List ToolCallRec :=
  executePlanGo registry file plan (chars "")

/-!
### app/agent/planner.py — `create_plan_rulebased`
-/

/-- The planner's `wants_summary` condition on the lowercased task. -/
def wants_summary (taskLower : Str) : Bool :=
  hasSub (chars "summarize") taskLower || hasSub (chars "summary") taskLower ||
  hasSub (chars "stats") taskLower || hasSub (chars "statistics") taskLower ||
  hasSub (chars "describe") taskLower || hasSub (chars "profile") taskLower ||
  hasSub (chars "overview") taskLower

/-- `create_plan_rulebased(task, has_file)` from `app/agent/planner.py`.
(`wants_cleaning` is computed in the source but never used.) -/
def create_plan_rulebased (task : Str) (hasFile : Bool) : List Str :=
  let taskLower := pyLower task
  let wantsSummary := wants_summary taskLower
  let mentionsCsv := hasSub (chars "csv") taskLower
  let steps : List Str :=
    if mentionsCsv || hasFile then
      chars "Load the CSV file" ::
        ((if hasSub (chars "missing") taskLower then [chars "Detect missing values"] else []) ++
         (if wantsSummary then [chars "Generate summary statistics"] else []))
    else if wantsSummary then [chars "Generate summary statistics"]
    else []
  if steps.isEmpty then [chars "Analyze the task", chars "Execute the task"] else steps

/-!
### app/main.py — plan selection and tool-call merging

`run_agent` first tries `plan_via_llm`; the call either raises or returns
an arbitrary Python value.  The handler accepts the LLM plan only when the
value is a dict with a `'plan'` key holding a list; it then iterates over
`llm_resp.get('tool_calls') or []`, which raises `TypeError` (caught by the
surrounding `except`, nulling the plan) when that value is truthy but not
iterable.  Whenever no LLM plan survives, the executed plan is the
rule-based one.  Python values are modelled by `PyVal`.
-/

/-- Model of the Python values relevant to the handler's checks. -/
inductive PyVal where
  | pystr (s : Str)
  | pyint (n : Int)
  | pybool (b : Bool)
  | pynone
  | pylist (xs : List PyVal)
  | pydict (entries : List (Str × PyVal))

/-- Python truthiness. -/
def truthy : PyVal → Bool
  | PyVal.pystr s => !s.isEmpty
  | PyVal.pyint n => n != 0
  | PyVal.pybool b => b
  | PyVal.pynone => false
  | PyVal.pylist xs => !xs.isEmpty
  | PyVal.pydict es => !es.isEmpty

/-- Python `d.get(key)` on a dict value's entries. -/
def pyDictGet (es : List (Str × PyVal)) (key : Str) : Option PyVal :=
  assocGet es key

/-- The elements `for … in v` iterates over; `none` models a `TypeError`
for non-iterable values. -/
def iterElems : PyVal → Option (List PyVal)
  | PyVal.pylist xs => some xs
  | PyVal.pystr s => some (s.map (fun c => PyVal.pystr [c]))
  | PyVal.pydict es => some (es.map (fun e => PyVal.pystr e.1))
  | _ => none

/-- The plan `run_agent` hands to `execute_plan` (lines 75–113 of
`app/main.py`): the LLM outcome is `Except.error msg` when `plan_via_llm`
raised, otherwise `Except.ok` of the returned value.  The rule-based
fallback plan (a list of `str`) is injected into `PyVal`. -/
def runAgentPlan (llm : Except Str PyVal) (task : Str) (hasFile : Bool) : List PyVal :=
  let planOpt : Option (List PyVal) :=
    match llm with
    | Except.error _ => none
    | Except.ok v =>
      match v with
      | PyVal.pydict es =>
        match pyDictGet es (chars "plan") with
        | some (PyVal.pylist ps) =>
          -- plan accepted; the `tool_calls` extraction loop may still raise
          let raw := (pyDictGet es (chars "tool_calls")).getD PyVal.pynone
          let raw := if truthy raw then raw else PyVal.pylist []
          match iterElems raw with
          | some _ => some ps
          | none => none
        | _ => none
      | _ => none
  match planOpt with
  | some p => p
  | none => (create_plan_rulebased task hasFile).map PyVal.pystr

/-- A planner-suggested tool call as surfaced by `run_agent`
(lines 93–99 of `app/main.py`): always `status: 'planned'`. -/
def mkPlanned (toolName : Str) : ToolCallRec :=
  { tool_name := toolName, status := chars "planned", reason := none, error := none }

/-- The merge of planner-suggested calls with the executor log
(lines 125–133 of `app/main.py`). -/
def mergeToolCalls (plannedToolCalls toolCalls : List ToolCallRec) : List ToolCallRec :=
  if plannedToolCalls.isEmpty then toolCalls
  else
    let existingNames := toolCalls.map (fun t => t.tool_name)
    let merged := plannedToolCalls.filter (fun pt => decide (pt.tool_name ∉ existingNames))
    merged ++ toolCalls

/-!
## Infrastructure lemmas
-/

section ExecutorLemmas

variable {F : Type} (registry : Registry F) (file : Option F)

/-- The log component of the loop is the per-step records, in plan order,
independent of the `result` accumulator. -/
theorem executePlanGo_snd (plan : List Str) (r : Str) :
    (executePlanGo registry file plan r).2 =
      plan.map (fun s => (execStep registry file s).1) := by
  induction plan generalizing r with
  | nil => rfl
  | cons step rest ih => simp [executePlanGo, ih]

/-- The result component of the loop is the fold of the per-step result
writes over the accumulator. -/
theorem executePlanGo_fst (plan : List Str) (r : Str) :
    (executePlanGo registry file plan r).1 =
      plan.foldl (fun racc s => ((execStep registry file s).2).getD racc) r := by
  induction plan generalizing r with
  | nil => rfl
  | cons step rest ih => simp [executePlanGo, ih]

/-- Cons/getLast? bookkeeping for the "last write wins" characterisation. -/
theorem getLast?_cons_getD (x r : Str) (l : List Str) :
    ((x :: l).getLast?).getD r = (l.getLast?).getD x := by
  induction l generalizing x with
  | nil => rfl
  | cons b t ih =>
    rw [List.getLast?_cons_cons]
    cases h : (b :: t).getLast? with
    | none =>
      have hne : (b :: t) ≠ [] := by simp
      have hs := List.getLast?_isSome.mpr hne
      rw [h] at hs
      exact absurd hs (by simp)
    | some y => simp

/-- The fold of result writes equals the last write, when one exists. -/
theorem foldl_writes_eq_getLast? (plan : List Str) (r : Str) :
    plan.foldl (fun racc s => ((execStep registry file s).2).getD racc) r =
      ((plan.filterMap (fun s => (execStep registry file s).2)).getLast?).getD r := by
  induction plan generalizing r with
  | nil => rfl
  | cons step rest ih =>
    simp only [List.foldl_cons, List.filterMap_cons]
    cases h : (execStep registry file step).2 with
    | none => simpa [h] using ih _
    | some x => rw [ih ((some x).getD r)]; simp [getLast?_cons_getD]

/-- Every record the loop body produces has one of the three statuses. -/
theorem execStep_status (s : Str) :
    (execStep registry file s).1.status = chars "success" ∨
    (execStep registry file s).1.status = chars "skipped" ∨
    (execStep registry file s).1.status = chars "error" := by
  unfold execStep
  split
  · exact Or.inr (Or.inl rfl)
  · split
    · exact Or.inr (Or.inr rfl)
    · split
      · exact Or.inr (Or.inl rfl)
      · split
        · exact Or.inl rfl
        · exact Or.inr (Or.inr rfl)

/-- The record's `tool_name` is the step itself when no tool matched, and
the matched tool's name otherwise. -/
theorem execStep_tool_name (s : Str) :
    (execStep registry file s).1.tool_name =
      ((find_best_matching_tool s (registry.map Prod.fst)).getD s) := by
  unfold execStep
  split
  · rename_i h
    rw [h]
    rfl
  · rename_i name h
    rw [h]
    split
    · rfl
    · split
      · rfl
      · split
        · rfl
        · rfl

/-- A step with no matching tool writes nothing to `result`. -/
theorem execStep_write_none {s : Str}
    (h : find_best_matching_tool s (registry.map Prod.fst) = none) :
    execStep registry file s = (noMatchRec s, none) := by
  unfold execStep
  rw [h]

end ExecutorLemmas

section AliasScanLemmas

variable (stepLower tool : Str)

/-- The accumulated best alias length never decreases. -/
theorem aliasScan_len_le (as : List Str) (bm : Option Str) (bl : Nat) :
    bl ≤ (aliasScan stepLower tool as (bm, bl)).2 := by
  induction as generalizing bm bl with
  | nil => exact Nat.le_refl _
  | cons a as ih =>
    rw [aliasScan]
    by_cases h : hasSub a stepLower = true ∧ bl < a.length
    · rw [if_pos h]
      exact Nat.le_trans (Nat.le_of_lt h.2) (ih _ _)
    · rw [if_neg h]
      exact ih _ _

/-- After the scan, the accumulated length dominates every matching alias. -/
theorem aliasScan_dominates (as : List Str) (bm : Option Str) (bl : Nat) :
    ∀ a ∈ as, hasSub a stepLower = true →
      a.length ≤ (aliasScan stepLower tool as (bm, bl)).2 := by
  induction as generalizing bm bl with
  | nil => intro a ha; exact absurd ha (List.not_mem_nil a)
  | cons a' as ih =>
    intro a ha hsub
    rw [aliasScan]
    rcases List.mem_cons.mp ha with rfl | hmem
    · by_cases h : hasSub a stepLower = true ∧ bl < a.length
      · rw [if_pos h]
        exact aliasScan_len_le stepLower tool as _ _
      · rw [if_neg h]
        have hle : a.length ≤ bl := by
          rcases Nat.lt_or_ge bl a.length with hlt | hge
          · exact absurd ⟨hsub, hlt⟩ h
          · exact hge
        exact Nat.le_trans hle (aliasScan_len_le stepLower tool as _ _)
    · by_cases h : hasSub a' stepLower = true ∧ bl < a'.length
      · rw [if_pos h]; exact ih _ _ a hmem hsub
      · rw [if_neg h]; exact ih _ _ a hmem hsub

/-- The scan either leaves the accumulator unchanged or ends on a matching
alias of the scanned tool that strictly improved on the initial length. -/
theorem aliasScan_cases (as : List Str) (bm : Option Str) (bl : Nat) :
    aliasScan stepLower tool as (bm, bl) = (bm, bl) ∨
      ∃ a ∈ as, hasSub a stepLower = true ∧
        (aliasScan stepLower tool as (bm, bl)).1 = some tool ∧
        (aliasScan stepLower tool as (bm, bl)).2 = a.length ∧ bl < a.length := by
  induction as generalizing bm bl with
  | nil => exact Or.inl rfl
  | cons a' as ih =>
    rw [aliasScan]
    by_cases h : hasSub a' stepLower = true ∧ bl < a'.length
    · rw [if_pos h]
      rcases ih (some tool) a'.length with heq | ⟨a, hmem, hsub, h1, h2, h3⟩
      · refine Or.inr ⟨a', List.mem_cons_self _ _, h.1, ?_, ?_, h.2⟩
        · rw [heq]
        · rw [heq]
      · exact Or.inr ⟨a, List.mem_cons_of_mem _ hmem, hsub, h1, h2,
          Nat.lt_trans h.2 h3⟩
    · rw [if_neg h]
      rcases ih bm bl with heq | ⟨a, hmem, hsub, h1, h2, h3⟩
      · exact Or.inl heq
      · exact Or.inr ⟨a, List.mem_cons_of_mem _ hmem, hsub, h1, h2, h3⟩

end AliasScanLemmas

/-!
### Characterisation of `_find_best_matching_tool` on the actual registry
-/

/-- The key list of the actual registry (`TOOL_REGISTRY.keys()`). -/
def registryKeys : List Str := [GEN_SUMMARY, DETECT_MISSING]

theorem TOOL_REGISTRY_keys {F : Type} (g d : F → Except Str Str) :
    (TOOL_REGISTRY g d).map Prod.fst = registryKeys := rfl

theorem lower_keys_distinct : pyLower GEN_SUMMARY ≠ pyLower DETECT_MISSING := by decide

theorem alias_len_pos : ∀ t ∈ registryKeys, ∀ a ∈ aliasesOf t, 0 < a.length := by decide

section FindSpec

variable (step : Str)

theorem find_exact_gen (h : pyLower step = pyLower GEN_SUMMARY) :
    find_best_matching_tool step registryKeys = some GEN_SUMMARY := by
  simp [find_best_matching_tool, registryKeys, exactAliasLoop, h]

theorem find_exact_detect (h : pyLower step = pyLower DETECT_MISSING) :
    find_best_matching_tool step registryKeys = some DETECT_MISSING := by
  have h1 : pyLower step ≠ pyLower GEN_SUMMARY := by
    rw [h]; exact fun hc => lower_keys_distinct hc.symm
  have hd : pyLower DETECT_MISSING ≠ pyLower GEN_SUMMARY :=
    fun hc => lower_keys_distinct hc.symm
  simp [find_best_matching_tool, registryKeys, exactAliasLoop, h, h1, hd]

/-- When neither name matches exactly, the first loop ends with the two
alias scans chained over the accumulator. -/
theorem exactAliasLoop_no_exact
    (h1 : pyLower step ≠ pyLower GEN_SUMMARY) (h2 : pyLower step ≠ pyLower DETECT_MISSING) :
    exactAliasLoop (pyLower step) registryKeys (none, 0) =
      Sum.inr (aliasScan (pyLower step) DETECT_MISSING (aliasesOf DETECT_MISSING)
        (aliasScan (pyLower step) GEN_SUMMARY (aliasesOf GEN_SUMMARY) (none, 0))) := by
  simp [registryKeys, exactAliasLoop, h1, h2]

/-- Alias stage: with no exact match and at least one alias occurring in the
step, the matcher returns a tool owning a matching alias of maximal length
among all matching aliases. -/
theorem find_alias_stage
    (h1 : pyLower step ≠ pyLower GEN_SUMMARY) (h2 : pyLower step ≠ pyLower DETECT_MISSING)
    (hex : ∃ t ∈ registryKeys, ∃ a ∈ aliasesOf t, hasSub a (pyLower step) = true) :
    ∃ t ∈ registryKeys, ∃ a ∈ aliasesOf t,
      find_best_matching_tool step registryKeys = some t ∧
      hasSub a (pyLower step) = true ∧
      ∀ t' ∈ registryKeys, ∀ a' ∈ aliasesOf t', hasSub a' (pyLower step) = true →
        a'.length ≤ a.length := by
  generalize hs1 : aliasScan (pyLower step) GEN_SUMMARY (aliasesOf GEN_SUMMARY) (none, 0) = s1
  obtain ⟨b1, l1⟩ := s1
  generalize hs2 : aliasScan (pyLower step) DETECT_MISSING (aliasesOf DETECT_MISSING) (b1, l1) = s2
  obtain ⟨b2, l2⟩ := s2
  -- the final accumulated length dominates all matching aliases
  have dom1 : ∀ a ∈ aliasesOf GEN_SUMMARY, hasSub a (pyLower step) = true → a.length ≤ l2 := by
    intro a ha hsub
    have hd := aliasScan_dominates (pyLower step) GEN_SUMMARY (aliasesOf GEN_SUMMARY) none 0 a ha hsub
    rw [hs1] at hd
    have hle := aliasScan_len_le (pyLower step) DETECT_MISSING (aliasesOf DETECT_MISSING) b1 l1
    rw [hs2] at hle
    exact Nat.le_trans hd hle
  have dom2 : ∀ a ∈ aliasesOf DETECT_MISSING, hasSub a (pyLower step) = true → a.length ≤ l2 := by
    intro a ha hsub
    have hd := aliasScan_dominates (pyLower step) DETECT_MISSING (aliasesOf DETECT_MISSING) b1 l1 a ha hsub
    rw [hs2] at hd
    exact hd
  have domBoth : ∀ t' ∈ registryKeys, ∀ a' ∈ aliasesOf t', hasSub a' (pyLower step) = true →
      a'.length ≤ l2 := by
    intro t' ht' a' ha' hsub'
    rcases List.mem_cons.mp ht' with rfl | ht''
    · exact dom1 a' ha' hsub'
    · rcases List.mem_cons.mp ht'' with rfl | h3
      · exact dom2 a' ha' hsub'
      · exact absurd h3 (List.not_mem_nil t')
  have hfind : ∀ t, b2 = some t → find_best_matching_tool step registryKeys = some t := by
    intro t hbt
    subst hbt
    simp only [find_best_matching_tool]
    rw [if_neg (by simp [registryKeys])]
    rw [exactAliasLoop_no_exact step h1 h2, hs1, hs2]
  have hcases2 := aliasScan_cases (pyLower step) DETECT_MISSING (aliasesOf DETECT_MISSING) b1 l1
  rw [hs2] at hcases2
  rcases hcases2 with hA | ⟨a, hmem, hsub, hr1, hr2, _⟩
  · -- the second scan left the accumulator unchanged
    have hb : b2 = b1 := congrArg Prod.fst hA
    have hl : l2 = l1 := congrArg Prod.snd hA
    have hcases1 := aliasScan_cases (pyLower step) GEN_SUMMARY (aliasesOf GEN_SUMMARY) none 0
    rw [hs1] at hcases1
    rcases hcases1 with hB | ⟨a, hmem, hsub, hr1, hr2, _⟩
    · -- both scans found nothing, contradicting `hex`
      exfalso
      have hl1 : l1 = 0 := congrArg Prod.snd hB
      rcases hex with ⟨t, ht, a, ha, hsubx⟩
      have hpos := alias_len_pos t ht a ha
      have hdom := domBoth t ht a ha hsubx
      rw [hl, hl1] at hdom
      exact Nat.not_lt.mpr hdom hpos
    · -- the first scan ended on an alias of GEN_SUMMARY
      simp only at hr1 hr2
      refine ⟨GEN_SUMMARY, by simp [registryKeys], a, hmem, ?_, hsub, ?_⟩
      · exact hfind GEN_SUMMARY (hb.trans hr1)
      · intro t' ht' a' ha' hsub'
        have hd := domBoth t' ht' a' ha' hsub'
        rw [hl, hr2] at hd
        exact hd
  · -- the second scan ended on an alias of DETECT_MISSING
    simp only at hr1 hr2
    refine ⟨DETECT_MISSING, by simp [registryKeys], a, hmem, ?_, hsub, ?_⟩
    · exact hfind DETECT_MISSING hr1
    · intro t' ht' a' ha' hsub'
      have hd := domBoth t' ht' a' ha' hsub'
      rw [hr2] at hd
      exact hd

/-- With no exact and no alias match, the matcher falls through to the
fuzzy loop. -/
theorem find_no_alias_eq_fuzzy
    (h1 : pyLower step ≠ pyLower GEN_SUMMARY) (h2 : pyLower step ≠ pyLower DETECT_MISSING)
    (hno : ∀ t ∈ registryKeys, ∀ a ∈ aliasesOf t, hasSub a (pyLower step) = false) :
    find_best_matching_tool step registryKeys =
      fuzzyLoop (pyLower step) registryKeys (none, 0) := by
  have hscan1 : aliasScan (pyLower step) GEN_SUMMARY (aliasesOf GEN_SUMMARY) (none, 0) =
      (none, 0) := by
    rcases aliasScan_cases (pyLower step) GEN_SUMMARY (aliasesOf GEN_SUMMARY) none 0 with
      h | ⟨a, hmem, hsub, _⟩
    · exact h
    · rw [hno GEN_SUMMARY (by simp [registryKeys]) a hmem] at hsub
      exact absurd hsub (by simp)
  have hscan2 : aliasScan (pyLower step) DETECT_MISSING (aliasesOf DETECT_MISSING) (none, 0) =
      (none, 0) := by
    rcases aliasScan_cases (pyLower step) DETECT_MISSING (aliasesOf DETECT_MISSING) none 0 with
      h | ⟨a, hmem, hsub, _⟩
    · exact h
    · rw [hno DETECT_MISSING (by simp [registryKeys]) a hmem] at hsub
      exact absurd hsub (by simp)
  simp only [find_best_matching_tool]
  rw [if_neg (by simp [registryKeys])]
  rw [exactAliasLoop_no_exact step h1 h2, hscan1, hscan2]

/-- Fuzzy stage, success case: some ratio reaches the threshold, and the
returned tool maximises the ratio among the registry keys. -/
theorem fuzzy_stage_reaches
    (hex : ∃ t ∈ registryKeys, ratioThreshold ≤ ratioQ (pyLower step) (pyLower t)) :
    ∃ t ∈ registryKeys,
      fuzzyLoop (pyLower step) registryKeys (none, 0) = some t ∧
      ratioThreshold ≤ ratioQ (pyLower step) (pyLower t) ∧
      ∀ t' ∈ registryKeys,
        ratioQ (pyLower step) (pyLower t') ≤ ratioQ (pyLower step) (pyLower t) := by
  have hthr : (0 : ℚ) < ratioThreshold := by norm_num [ratioThreshold]
  have hmem : ∀ t' ∈ registryKeys, t' = GEN_SUMMARY ∨ t' = DETECT_MISSING := by
    intro t' ht'
    rcases List.mem_cons.mp ht' with rfl | h3
    · exact Or.inl rfl
    · rcases List.mem_cons.mp h3 with rfl | h4
      · exact Or.inr rfl
      · exact absurd h4 (List.not_mem_nil t')
  by_cases hA : ratioThreshold ≤ ratioQ (pyLower step) (pyLower GEN_SUMMARY)
  · have h0 : (0 : ℚ) < ratioQ (pyLower step) (pyLower GEN_SUMMARY) := lt_of_lt_of_le hthr hA
    by_cases hB : ratioQ (pyLower step) (pyLower GEN_SUMMARY) <
        ratioQ (pyLower step) (pyLower DETECT_MISSING) ∧
        ratioThreshold ≤ ratioQ (pyLower step) (pyLower DETECT_MISSING)
    · refine ⟨DETECT_MISSING, by simp [registryKeys], ?_, hB.2, ?_⟩
      · simp [fuzzyLoop, registryKeys, h0, hA, hB.1, hB.2]
      · intro t' ht'
        rcases hmem t' ht' with rfl | rfl
        · exact le_of_lt hB.1
        · exact le_refl _
    · refine ⟨GEN_SUMMARY, by simp [registryKeys], ?_, hA, ?_⟩
      · simp [fuzzyLoop, registryKeys, h0, hA, hB]
      · intro t' ht'
        rcases hmem t' ht' with rfl | rfl
        · exact le_refl _
        · by_cases h12 : ratioQ (pyLower step) (pyLower GEN_SUMMARY) <
              ratioQ (pyLower step) (pyLower DETECT_MISSING)
          · have hB2 : ¬ ratioThreshold ≤ ratioQ (pyLower step) (pyLower DETECT_MISSING) :=
              fun hc => hB ⟨h12, hc⟩
            exact absurd (le_of_lt (lt_of_le_of_lt hA h12)) hB2
          · exact le_of_not_lt h12
  · have ht2 : ratioThreshold ≤ ratioQ (pyLower step) (pyLower DETECT_MISSING) := by
      rcases hex with ⟨t, ht, hle⟩
      rcases hmem t ht with rfl | rfl
      · exact absurd hle hA
      · exact hle
    have h02 : (0 : ℚ) < ratioQ (pyLower step) (pyLower DETECT_MISSING) :=
      lt_of_lt_of_le hthr ht2
    refine ⟨DETECT_MISSING, by simp [registryKeys], ?_, ht2, ?_⟩
    · have hA' : ¬ ((0 : ℚ) < ratioQ (pyLower step) (pyLower GEN_SUMMARY) ∧
          ratioThreshold ≤ ratioQ (pyLower step) (pyLower GEN_SUMMARY)) := fun hc => hA hc.2
      simp [fuzzyLoop, registryKeys, hA', h02, ht2]
    · intro t' ht'
      rcases hmem t' ht' with rfl | rfl
      · exact le_of_lt (lt_of_lt_of_le (lt_of_not_le hA) ht2)
      · exact le_refl _

/-- Fuzzy stage, failure case: both ratios are below the threshold, so the
loop returns `None`. -/
theorem fuzzy_stage_below
    (hlt : ∀ t ∈ registryKeys, ratioQ (pyLower step) (pyLower t) < ratioThreshold) :
    fuzzyLoop (pyLower step) registryKeys (none, 0) = none := by
  have hl1 := hlt GEN_SUMMARY (by simp [registryKeys])
  have hl2 := hlt DETECT_MISSING (by simp [registryKeys])
  have hn1 : ¬ ((0 : ℚ) < ratioQ (pyLower step) (pyLower GEN_SUMMARY) ∧
      ratioThreshold ≤ ratioQ (pyLower step) (pyLower GEN_SUMMARY)) :=
    fun hc => absurd hc.2 (not_le_of_lt hl1)
  have hn2 : ¬ ((0 : ℚ) < ratioQ (pyLower step) (pyLower DETECT_MISSING) ∧
      ratioThreshold ≤ ratioQ (pyLower step) (pyLower DETECT_MISSING)) :=
    fun hc => absurd hc.2 (not_le_of_lt hl2)
  simp [fuzzyLoop, registryKeys, hn1, hn2]

/-- Any tool the matcher returns is one of the two registry keys. -/
theorem find_mem {t : Str} (h : find_best_matching_tool step registryKeys = some t) :
    t = GEN_SUMMARY ∨ t = DETECT_MISSING := by
  by_cases h1 : pyLower step = pyLower GEN_SUMMARY
  · rw [find_exact_gen step h1] at h
    exact Or.inl (Option.some.inj h).symm
  · by_cases h2 : pyLower step = pyLower DETECT_MISSING
    · rw [find_exact_detect step h2] at h
      exact Or.inr (Option.some.inj h).symm
    · by_cases hal : ∃ t0 ∈ registryKeys, ∃ a ∈ aliasesOf t0, hasSub a (pyLower step) = true
      · obtain ⟨t0, ht0, _, _, hf, _, _⟩ := find_alias_stage step h1 h2 hal
        rw [hf] at h
        have := (Option.some.inj h).symm
        subst this
        rcases List.mem_cons.mp ht0 with rfl | h3
        · exact Or.inl rfl
        · rcases List.mem_cons.mp h3 with rfl | h4
          · exact Or.inr rfl
          · exact absurd h4 (List.not_mem_nil t)
      · have hno : ∀ t0 ∈ registryKeys, ∀ a ∈ aliasesOf t0, hasSub a (pyLower step) = false := by
          intro t0 ht0 a ha
          rcases Bool.eq_false_or_eq_true (hasSub a (pyLower step)) with hv | hv
          · exact absurd ⟨t0, ht0, a, ha, hv⟩ hal
          · exact hv
        rw [find_no_alias_eq_fuzzy step h1 h2 hno] at h
        by_cases hq : ∃ t0 ∈ registryKeys, ratioThreshold ≤ ratioQ (pyLower step) (pyLower t0)
        · obtain ⟨t0, ht0, hf, _, _⟩ := fuzzy_stage_reaches step hq
          rw [hf] at h
          have := (Option.some.inj h).symm
          subst this
          rcases List.mem_cons.mp ht0 with rfl | h3
          · exact Or.inl rfl
          · rcases List.mem_cons.mp h3 with rfl | h4
            · exact Or.inr rfl
            · exact absurd h4 (List.not_mem_nil t)
        · have hlt : ∀ t0 ∈ registryKeys, ratioQ (pyLower step) (pyLower t0) < ratioThreshold := by
            intro t0 ht0
            exact lt_of_not_le (fun hc => hq ⟨t0, ht0, hc⟩)
          rw [fuzzy_stage_below step hlt] at h
          exact absurd h (by simp)

end FindSpec

/-!
## Claim theorems
-/

/-- Claim C1: for every plan step string, `_find_best_matching_tool`
resolves the step by a three-stage chain in this order: (1) if the
lowercased step equals a registry tool name lowercased, that tool is
returned; (2) otherwise, if any alias of any tool is a substring of the
lowercased step, the tool owning the longest such alias is returned
(regardless of string-similarity ratios); (3) otherwise the tool whose
lowercased name has the highest `SequenceMatcher` ratio with the lowercased
step is returned, provided that ratio is at least 0.5; if no stage succeeds
the function returns `None`. -/
theorem C1_find_best_matching_tool_three_stages (step : Str) :
    (∀ t ∈ registryKeys, pyLower step = pyLower t →
      find_best_matching_tool step registryKeys = some t) ∧
    ((∀ t ∈ registryKeys, pyLower step ≠ pyLower t) →
      (∃ t ∈ registryKeys, ∃ a ∈ aliasesOf t, hasSub a (pyLower step) = true) →
      ∃ t ∈ registryKeys, ∃ a ∈ aliasesOf t,
        find_best_matching_tool step registryKeys = some t ∧
        hasSub a (pyLower step) = true ∧
        ∀ t' ∈ registryKeys, ∀ a' ∈ aliasesOf t', hasSub a' (pyLower step) = true →
          a'.length ≤ a.length) ∧
    ((∀ t ∈ registryKeys, pyLower step ≠ pyLower t) →
      (∀ t ∈ registryKeys, ∀ a ∈ aliasesOf t, hasSub a (pyLower step) = false) →
      (∃ t ∈ registryKeys, ratioThreshold ≤ ratioQ (pyLower step) (pyLower t)) →
      ∃ t ∈ registryKeys,
        find_best_matching_tool step registryKeys = some t ∧
        ratioThreshold ≤ ratioQ (pyLower step) (pyLower t) ∧
        ∀ t' ∈ registryKeys,
          ratioQ (pyLower step) (pyLower t') ≤ ratioQ (pyLower step) (pyLower t)) ∧
    ((∀ t ∈ registryKeys, pyLower step ≠ pyLower t) →
      (∀ t ∈ registryKeys, ∀ a ∈ aliasesOf t, hasSub a (pyLower step) = false) →
      (∀ t ∈ registryKeys, ratioQ (pyLower step) (pyLower t) < ratioThreshold) →
      find_best_matching_tool step registryKeys = none) := by
  have hGen : GEN_SUMMARY ∈ registryKeys := by simp [registryKeys]
  have hDet : DETECT_MISSING ∈ registryKeys := by simp [registryKeys]
  refine ⟨?_, ?_, ?_, ?_⟩
  · intro t ht heq
    rcases List.mem_cons.mp ht with rfl | h3
    · exact find_exact_gen step heq
    · rcases List.mem_cons.mp h3 with rfl | h4
      · exact find_exact_detect step heq
      · exact absurd h4 (List.not_mem_nil t)
  · intro hne hex
    exact find_alias_stage step (hne GEN_SUMMARY hGen) (hne DETECT_MISSING hDet) hex
  · intro hne hno hex
    obtain ⟨t, ht, hf, hth, hmax⟩ := fuzzy_stage_reaches step hex
    refine ⟨t, ht, ?_, hth, hmax⟩
    rw [find_no_alias_eq_fuzzy step (hne GEN_SUMMARY hGen) (hne DETECT_MISSING hDet) hno]
    exact hf
  · intro hne hno hlt
    rw [find_no_alias_eq_fuzzy step (hne GEN_SUMMARY hGen) (hne DETECT_MISSING hDet) hno]
    exact fuzzy_stage_below step hlt

/-- Witness for C1: the step "Check for missing data" matches no tool name
exactly, and the alias stage returns the tool owning a longest matching
alias (here "missing", owned by "Detect missing values"). -/
theorem C1_witness :
    find_best_matching_tool (chars "Check for missing data") registryKeys =
      some DETECT_MISSING := by
  obtain ⟨t, ht, a, ha, hf, hsub, _⟩ :=
    (C1_find_best_matching_tool_three_stages (chars "Check for missing data")).2.1
      (by decide) (by decide)
  have hGenNo : ∀ a0 ∈ aliasesOf GEN_SUMMARY,
      hasSub a0 (pyLower (chars "Check for missing data")) = false := by decide
  have ht' : t = DETECT_MISSING := by
    rcases List.mem_cons.mp ht with rfl | h3
    · rw [hGenNo a ha] at hsub
      exact absurd hsub (by simp)
    · rcases List.mem_cons.mp h3 with rfl | h4
      · rfl
      · exact absurd h4 (List.not_mem_nil t)
  rw [ht'] at hf
  exact hf

/-- When a step matches tool `t`, the loop body applies exactly the function
registered under `t` to the provided file, and builds the success/error
record and result write from its outcome. -/
theorem execStep_matched {F : Type} (g d : F → Except Str Str) (f : F) (s t : Str)
    (hfind : find_best_matching_tool s registryKeys = some t) :
    execStep (TOOL_REGISTRY g d) (some f) s =
      (match (if t = GEN_SUMMARY then g f else d f) with
       | Except.ok out => ({ tool_name := t, status := chars "success" }, some out)
       | Except.error e =>
         ({ tool_name := t, status := chars "error", error := some e },
          some (chars "Error running tool \x27" ++ t ++ chars "\x27: " ++ e))) := by
  have hkeys : (TOOL_REGISTRY g d).map Prod.fst = registryKeys := rfl
  unfold execStep
  rw [hkeys, hfind]
  rcases find_mem s hfind with rfl | rfl
  · have hget : assocGet (TOOL_REGISTRY g d) GEN_SUMMARY = some g := by
      simp [TOOL_REGISTRY, assocGet]
    dsimp only
    rw [hget, if_pos rfl]
  · have hne : GEN_SUMMARY ≠ DETECT_MISSING := by decide
    have hget : assocGet (TOOL_REGISTRY g d) DETECT_MISSING = some d := by
      simp [TOOL_REGISTRY, assocGet, hne]
    dsimp only
    rw [hget, if_neg (fun hc => hne hc.symm)]

/-- Claim C2: for every plan and optional file, the `tool_calls` log has
exactly one record per plan step, in plan order (the `i`-th record names the
`i`-th step or the tool it matched), and every record's status is
"success", "skipped" or "error". -/
theorem C2_execute_plan_log_invariant {F : Type} (g d : F → Except Str Str)
    (plan : List Str) (file : Option F) :
    (execute_plan (TOOL_REGISTRY g d) plan file).2.length = plan.length ∧
    (∀ r ∈ (execute_plan (TOOL_REGISTRY g d) plan file).2,
      r.status = chars "success" ∨ r.status = chars "skipped" ∨ r.status = chars "error") ∧
    (∀ i : Nat,
      ((execute_plan (TOOL_REGISTRY g d) plan file).2[i]?).map ToolCallRec.tool_name =
        (plan[i]?).map (fun s => (find_best_matching_tool s registryKeys).getD s)) := by
  have hlog : (execute_plan (TOOL_REGISTRY g d) plan file).2 =
      plan.map (fun s => (execStep (TOOL_REGISTRY g d) file s).1) :=
    executePlanGo_snd (TOOL_REGISTRY g d) file plan (chars "")
  refine ⟨?_, ?_, ?_⟩
  · rw [hlog, List.length_map]
  · intro r hr
    rw [hlog] at hr
    obtain ⟨s, _, rfl⟩ := List.mem_map.mp hr
    exact execStep_status (TOOL_REGISTRY g d) file s
  · intro i
    rw [hlog, List.getElem?_map]
    cases hp : plan[i]? with
    | none => rfl
    | some s =>
      simp only [Option.map_some']
      rw [execStep_tool_name]
      rfl

/-- Witness for C2 at a concrete plan: one step, one record, with the
skipped status (no file provided) and the matched tool's name. -/
theorem C2_witness :
    ((execute_plan (TOOL_REGISTRY (fun _ : Unit => Except.ok []) (fun _ => Except.ok []))
        [chars "summary"] none).2.length = [chars "summary"].length) ∧
    (((execute_plan (TOOL_REGISTRY (fun _ : Unit => Except.ok []) (fun _ => Except.ok []))
        [chars "summary"] none).2[0]?).map ToolCallRec.tool_name =
      ([chars "summary"][0]?).map (fun s => (find_best_matching_tool s registryKeys).getD s)) ∧
    ({ tool_name := GEN_SUMMARY, status := chars "skipped",
       reason := some (chars "no_file_provided"),
       error := some (chars "Tool \x27" ++ GEN_SUMMARY ++
         chars "\x27 requires a file, but none was provided") : ToolCallRec }.status =
        chars "success" ∨
     ({ tool_name := GEN_SUMMARY, status := chars "skipped",
        reason := some (chars "no_file_provided"),
        error := some (chars "Tool \x27" ++ GEN_SUMMARY ++
          chars "\x27 requires a file, but none was provided") : ToolCallRec }.status =
        chars "skipped" ∨
      { tool_name := GEN_SUMMARY, status := chars "skipped",
        reason := some (chars "no_file_provided"),
        error := some (chars "Tool \x27" ++ GEN_SUMMARY ++
          chars "\x27 requires a file, but none was provided") : ToolCallRec }.status =
        chars "error")) :=
  ⟨(C2_execute_plan_log_invariant (fun _ : Unit => Except.ok []) (fun _ => Except.ok [])
      [chars "summary"] none).1,
   (C2_execute_plan_log_invariant (fun _ : Unit => Except.ok []) (fun _ => Except.ok [])
      [chars "summary"] none).2.2 0,
   (C2_execute_plan_log_invariant (fun _ : Unit => Except.ok []) (fun _ => Except.ok [])
      [chars "summary"] none).2.1 _ (by decide)⟩

/-- Claim C3: for every plan step at which a matching tool is found, the
executor invokes exactly the analysis function registered under that tool
name on the request's file: the step's log record and result write are
determined by that function's outcome on the file. -/
theorem C3_matched_step_invokes_registered_function {F : Type} (g d : F → Except Str Str)
    (plan : List Str) (f : F) (i : Nat) (s t : Str)
    (hs : plan[i]? = some s)
    (hfind : find_best_matching_tool s registryKeys = some t) :
    ((execute_plan (TOOL_REGISTRY g d) plan (some f)).2[i]? =
      some (match (if t = GEN_SUMMARY then g f else d f) with
            | Except.ok _ => { tool_name := t, status := chars "success" }
            | Except.error e => { tool_name := t, status := chars "error", error := some e })) ∧
    ((execStep (TOOL_REGISTRY g d) (some f) s).2 =
      some (match (if t = GEN_SUMMARY then g f else d f) with
            | Except.ok out => out
            | Except.error e => chars "Error running tool \x27" ++ t ++ chars "\x27: " ++ e)) := by
  have hlog : (execute_plan (TOOL_REGISTRY g d) plan (some f)).2 =
      plan.map (fun s0 => (execStep (TOOL_REGISTRY g d) (some f) s0).1) :=
    executePlanGo_snd (TOOL_REGISTRY g d) (some f) plan (chars "")
  constructor
  · rw [hlog, List.getElem?_map, hs]
    simp only [Option.map_some']
    rw [execStep_matched g d f s t hfind]
    cases hx : (if t = GEN_SUMMARY then g f else d f) <;> rfl
  · rw [execStep_matched g d f s t hfind]
    cases hx : (if t = GEN_SUMMARY then g f else d f) <;> rfl

/-- Witness for C3: a "summary" step with a file invokes the summary
function; its output becomes the result write and the record is a success. -/
theorem C3_witness :
    ((execute_plan (TOOL_REGISTRY (fun _ : Unit => Except.ok (chars "table"))
        (fun _ => Except.ok [])) [chars "summary"] (some ())).2[0]? =
      some (match (if GEN_SUMMARY = GEN_SUMMARY
                   then (fun _ : Unit => Except.ok (chars "table")) ()
                   else (fun _ : Unit => Except.ok []) ()) with
            | Except.ok _ => { tool_name := GEN_SUMMARY, status := chars "success" }
            | Except.error e =>
              { tool_name := GEN_SUMMARY, status := chars "error", error := some e })) ∧
    ((execStep (TOOL_REGISTRY (fun _ : Unit => Except.ok (chars "table"))
        (fun _ => Except.ok [])) (some ()) (chars "summary")).2 =
      some (match (if GEN_SUMMARY = GEN_SUMMARY
                   then (fun _ : Unit => Except.ok (chars "table")) ()
                   else (fun _ : Unit => Except.ok []) ()) with
            | Except.ok out => out
            | Except.error e =>
              chars "Error running tool \x27" ++ GEN_SUMMARY ++ chars "\x27: " ++ e)) :=
  C3_matched_step_invokes_registered_function (fun _ : Unit => Except.ok (chars "table"))
    (fun _ => Except.ok []) [chars "summary"] () 0 (chars "summary") GEN_SUMMARY
    (by rfl) (by decide)

/-- Claim C4: if an invoked tool raises, the exception never escapes
`execute_plan`: the step is logged with status "error" and the exception's
message, the result is set to an error message naming the tool, and the
remaining steps are still executed. -/
theorem C4_tool_exception_is_caught {F : Type} (g d : F → Except Str Str)
    (step : Str) (rest : List Str) (f : F) (t e : Str)
    (hfind : find_best_matching_tool step registryKeys = some t)
    (herr : (if t = GEN_SUMMARY then g f else d f) = Except.error e) :
    ((execute_plan (TOOL_REGISTRY g d) (step :: rest) (some f)).2 =
      { tool_name := t, status := chars "error", error := some e } ::
        (execute_plan (TOOL_REGISTRY g d) rest (some f)).2) ∧
    ((execute_plan (TOOL_REGISTRY g d) [step] (some f)).1 =
      chars "Error running tool \x27" ++ t ++ chars "\x27: " ++ e) ∧
    ((execute_plan (TOOL_REGISTRY g d) (step :: rest) (some f)).2.length =
      rest.length + 1) := by
  have hstep := execStep_matched g d f step t hfind
  rw [herr] at hstep
  have hlog : ∀ (p : List Str) (r : Str),
      (executePlanGo (TOOL_REGISTRY g d) (some f) p r).2 =
        p.map (fun s0 => (execStep (TOOL_REGISTRY g d) (some f) s0).1) :=
    fun p r => executePlanGo_snd (TOOL_REGISTRY g d) (some f) p r
  refine ⟨?_, ?_, ?_⟩
  · show (executePlanGo (TOOL_REGISTRY g d) (some f) (step :: rest) (chars "")).2 = _
    rw [hlog, List.map_cons, hstep]
    rw [show (execute_plan (TOOL_REGISTRY g d) rest (some f)).2 =
      rest.map (fun s0 => (execStep (TOOL_REGISTRY g d) (some f) s0).1) from hlog rest _]
  · show (executePlanGo (TOOL_REGISTRY g d) (some f) [step] (chars "")).1 = _
    rw [executePlanGo, executePlanGo, hstep]
    rfl
  · show (executePlanGo (TOOL_REGISTRY g d) (some f) (step :: rest) (chars "")).2.length = _
    rw [hlog ((step :: rest)) (chars ""), List.length_map, List.length_cons]

/-- Witness for C4: a raising summary function is caught; the record carries
the message "boom", the result names the tool, and the second step still
runs. -/
theorem C4_witness :
    ((execute_plan (TOOL_REGISTRY (fun _ : Unit => Except.error (chars "boom"))
        (fun _ => Except.ok [])) [chars "summary", chars "missing"] (some ())).2 =
      { tool_name := GEN_SUMMARY, status := chars "error", error := some (chars "boom") } ::
        (execute_plan (TOOL_REGISTRY (fun _ : Unit => Except.error (chars "boom"))
          (fun _ => Except.ok [])) [chars "missing"] (some ())).2) ∧
    ((execute_plan (TOOL_REGISTRY (fun _ : Unit => Except.error (chars "boom"))
        (fun _ => Except.ok [])) [chars "summary"] (some ())).1 =
      chars "Error running tool \x27" ++ GEN_SUMMARY ++ chars "\x27: " ++ chars "boom") ∧
    ((execute_plan (TOOL_REGISTRY (fun _ : Unit => Except.error (chars "boom"))
        (fun _ => Except.ok [])) [chars "summary", chars "missing"] (some ())).2.length =
      [chars "missing"].length + 1) :=
  C4_tool_exception_is_caught (fun _ : Unit => Except.error (chars "boom"))
    (fun _ => Except.ok []) (chars "summary") [chars "missing"] () GEN_SUMMARY (chars "boom")
    (by decide) (by rfl)

/-- Claim C5: if the LLM planner raises, or returns anything that is not a
dict with a `'plan'` key holding a list, the executed plan is exactly the
rule-based one. -/
theorem C5_llm_failure_falls_back_to_rulebased (llm : Except Str PyVal)
    (task : Str) (hasFile : Bool)
    (h : ∀ v, llm = Except.ok v →
      ¬ ∃ es, ∃ ps, v = PyVal.pydict es ∧
        pyDictGet es (chars "plan") = some (PyVal.pylist ps)) :
    runAgentPlan llm task hasFile = (create_plan_rulebased task hasFile).map PyVal.pystr := by
  unfold runAgentPlan
  cases llm with
  | error m => rfl
  | ok v =>
    cases v with
    | pydict es =>
      cases hg : pyDictGet es (chars "plan") with
      | none => simp [hg]
      | some pv =>
        cases pv with
        | pylist ps => exact absurd ⟨es, ps, rfl, hg⟩ (h _ rfl)
        | pystr s => simp [hg]
        | pyint n => simp [hg]
        | pybool b => simp [hg]
        | pynone => simp [hg]
        | pydict es2 => simp [hg]
    | pystr s => rfl
    | pyint n => rfl
    | pybool b => rfl
    | pynone => rfl
    | pylist xs => rfl

/-- Witness for C5: a raising planner yields the rule-based plan. -/
theorem C5_witness :
    runAgentPlan (Except.error (chars "no api key")) (chars "hello") false =
      (create_plan_rulebased (chars "hello") false).map PyVal.pystr :=
  C5_llm_failure_falls_back_to_rulebased (Except.error (chars "no api key")) (chars "hello")
    false (fun v hv => absurd hv (by simp))

/-- Claim C6: the registry holds exactly the two tools "Generate summary
statistics" and "Detect missing values", mapping to the two analysis
functions, and the alias table's keys are exactly these two names. -/
theorem C6_registry_and_alias_table_contents {F : Type} (g d : F → Except Str Str) :
    (TOOL_REGISTRY g d).map Prod.fst =
      [chars "Generate summary statistics", chars "Detect missing values"] ∧
    (TOOL_REGISTRY g d).length = 2 ∧
    assocGet (TOOL_REGISTRY g d) (chars "Generate summary statistics") = some g ∧
    assocGet (TOOL_REGISTRY g d) (chars "Detect missing values") = some d ∧
    TOOL_ALIASES.map Prod.fst =
      [chars "Generate summary statistics", chars "Detect missing values"] :=
  ⟨rfl, rfl, rfl, rfl, rfl⟩

/-- Helper shared with the planner claims: whenever a CSV is mentioned or a
file was uploaded, the rule-based plan starts with "Load the CSV file". -/
theorem create_plan_head_load (task : Str) (hasFile : Bool)
    (h : hasSub (chars "csv") (pyLower task) = true ∨ hasFile = true) :
    (create_plan_rulebased task hasFile).head? = some (chars "Load the CSV file") := by
  have hcond : (hasSub (chars "csv") (pyLower task) || hasFile) = true := by
    rcases h with h | h <;> simp [h]
  simp only [create_plan_rulebased, hcond, if_true]
  simp

/-- Claim C7: the rule-based planner always returns a non-empty list; when
the task mentions "csv" or a file is present, the first step is "Load the
CSV file"; and when no rule matches, the plan is exactly
["Analyze the task", "Execute the task"]. -/
theorem C7_create_plan_rulebased_spec (task : Str) (hasFile : Bool) :
    (create_plan_rulebased task hasFile ≠ []) ∧
    ((hasSub (chars "csv") (pyLower task) = true ∨ hasFile = true) →
      (create_plan_rulebased task hasFile).head? = some (chars "Load the CSV file")) ∧
    ((hasSub (chars "csv") (pyLower task) = false ∧ hasFile = false ∧
        wants_summary (pyLower task) = false) →
      create_plan_rulebased task hasFile =
        [chars "Analyze the task", chars "Execute the task"]) := by
  refine ⟨?_, create_plan_head_load task hasFile, ?_⟩
  · unfold create_plan_rulebased
    by_cases h1 : (hasSub (chars "csv") (pyLower task) || hasFile) = true
    · simp only [h1, if_true]
      split <;> simp
    · simp only [Bool.not_eq_true] at h1
      simp only [h1, Bool.false_eq_true, if_false]
      by_cases h2 : wants_summary (pyLower task) = true
      · simp [h2]
      · simp only [Bool.not_eq_true] at h2
        simp [h2]
  · rintro ⟨hc, hf, hw⟩
    unfold create_plan_rulebased
    simp [hc, hf, hw]

/-- Witness for C7 at the task "load data.csv": CSV branch applies. -/
theorem C7_witness :
    (create_plan_rulebased (chars "load data.csv") false).head? =
      some (chars "Load the CSV file") :=
  (C7_create_plan_rulebased_spec (chars "load data.csv") false).2.1 (Or.inl (by decide))

/-- Claim C8: the executor's result string is the write of the last plan
step that wrote one (successful output, error message, or no-file message);
no-match steps write nothing, and a plan in which no step matches — the
empty plan included — yields the empty-string result. -/
theorem C8_result_is_last_write {F : Type} (g d : F → Except Str Str)
    (plan : List Str) (file : Option F) :
    ((execute_plan (TOOL_REGISTRY g d) plan file).1 =
      ((plan.filterMap (fun s => (execStep (TOOL_REGISTRY g d) file s).2)).getLast?).getD
        (chars "")) ∧
    ((∀ s ∈ plan, find_best_matching_tool s registryKeys = none) →
      (execute_plan (TOOL_REGISTRY g d) plan file).1 = chars "") := by
  have h1 : (execute_plan (TOOL_REGISTRY g d) plan file).1 =
      ((plan.filterMap (fun s => (execStep (TOOL_REGISTRY g d) file s).2)).getLast?).getD
        (chars "") := by
    rw [show (execute_plan (TOOL_REGISTRY g d) plan file).1 =
      (executePlanGo (TOOL_REGISTRY g d) file plan (chars "")).1 from rfl]
    rw [executePlanGo_fst]
    exact foldl_writes_eq_getLast? (TOOL_REGISTRY g d) file plan (chars "")
  refine ⟨h1, ?_⟩
  intro hall
  rw [h1]
  have hnil : plan.filterMap (fun s => (execStep (TOOL_REGISTRY g d) file s).2) = [] := by
    rw [List.filterMap_eq_nil_iff]
    intro s hs
    rw [execStep_write_none (TOOL_REGISTRY g d) file (hall s hs)]
  rw [hnil]
  rfl

/-- Witness for C8: the empty plan returns the empty result. -/
theorem C8_witness :
    (execute_plan (TOOL_REGISTRY (fun _ : Unit => Except.ok []) (fun _ => Except.ok []))
      [] none).1 = chars "" :=
  (C8_result_is_last_write (fun _ : Unit => Except.ok []) (fun _ => Except.ok []) [] none).2
    (fun s hs => absurd hs (List.not_mem_nil s))

set_option maxRecDepth 8192 in
/-- Claim C9: the step "Load the CSV file" — emitted first by the rule-based
planner whenever a CSV is mentioned or a file is uploaded — matches no tool:
it equals no lowercased tool name, contains no alias, and its ratio with
both tool names is below 0.5; hence the matcher returns `None`, and the
executor logs the step with status "skipped" and reason "no_matching_tool". -/
theorem C9_load_csv_step_never_matches :
    (∀ task : Str, ∀ hasFile : Bool,
      (hasSub (chars "csv") (pyLower task) = true ∨ hasFile = true) →
      (create_plan_rulebased task hasFile).head? = some (chars "Load the CSV file")) ∧
    (∀ t ∈ registryKeys, pyLower (chars "Load the CSV file") ≠ pyLower t) ∧
    (∀ t ∈ registryKeys, ∀ a ∈ aliasesOf t,
      hasSub a (pyLower (chars "Load the CSV file")) = false) ∧
    (∀ t ∈ registryKeys,
      ratioQ (pyLower (chars "Load the CSV file")) (pyLower t) < ratioThreshold) ∧
    (find_best_matching_tool (chars "Load the CSV file") registryKeys = none) ∧
    (∀ (F : Type) (g d : F → Except Str Str) (plan : List Str) (file : Option F) (i : Nat),
      plan[i]? = some (chars "Load the CSV file") →
      ((execute_plan (TOOL_REGISTRY g d) plan file).2[i]?).map
          (fun r => (r.status, r.reason)) =
        some (chars "skipped", some (chars "no_matching_tool"))) := by
  have hm1 : matchTotal (pyLower (chars "Load the CSV file")) (pyLower GEN_SUMMARY) = 6 := by
    decide
  have hm2 : matchTotal (pyLower (chars "Load the CSV file")) (pyLower DETECT_MISSING) = 3 := by
    decide
  have hl0 : (pyLower (chars "Load the CSV file")).length = 17 := by decide
  have hl1 : (pyLower GEN_SUMMARY).length = 27 := by decide
  have hl2 : (pyLower DETECT_MISSING).length = 21 := by decide
  have hr1 : ratioQ (pyLower (chars "Load the CSV file")) (pyLower GEN_SUMMARY) <
      ratioThreshold := by
    simp only [ratioQ, hm1, hl0, hl1, ratioThreshold]
    norm_num
  have hr2 : ratioQ (pyLower (chars "Load the CSV file")) (pyLower DETECT_MISSING) <
      ratioThreshold := by
    simp only [ratioQ, hm2, hl0, hl2, ratioThreshold]
    norm_num
  have hlt : ∀ t ∈ registryKeys,
      ratioQ (pyLower (chars "Load the CSV file")) (pyLower t) < ratioThreshold := by
    intro t ht
    rcases List.mem_cons.mp ht with rfl | h3
    · exact hr1
    · rcases List.mem_cons.mp h3 with rfl | h4
      · exact hr2
      · exact absurd h4 (List.not_mem_nil t)
  have hfind : find_best_matching_tool (chars "Load the CSV file") registryKeys = none := by
    rw [find_no_alias_eq_fuzzy (chars "Load the CSV file") (by decide) (by decide) (by decide)]
    exact fuzzy_stage_below (chars "Load the CSV file") hlt
  refine ⟨fun task hasFile h => create_plan_head_load task hasFile h,
    by decide, by decide, hlt, hfind, ?_⟩
  intro F g d plan file i hp
  have hlog : (execute_plan (TOOL_REGISTRY g d) plan file).2 =
      plan.map (fun s => (execStep (TOOL_REGISTRY g d) file s).1) :=
    executePlanGo_snd (TOOL_REGISTRY g d) file plan (chars "")
  rw [hlog, List.getElem?_map, hp]
  simp only [Option.map_some']
  rw [execStep_write_none (TOOL_REGISTRY g d) file hfind]
  rfl

/-- Witness for C9: a concrete one-step plan logs the skip. -/
theorem C9_witness :
    ((execute_plan (TOOL_REGISTRY (fun _ : Unit => Except.ok []) (fun _ => Except.ok []))
        [chars "Load the CSV file"] none).2[0]?).map (fun r => (r.status, r.reason)) =
      some (chars "skipped", some (chars "no_matching_tool")) :=
  C9_load_csv_step_never_matches.2.2.2.2.2 Unit (fun _ => Except.ok []) (fun _ => Except.ok [])
    [chars "Load the CSV file"] none 0 (by rfl)

/-- Claim C10: merging LLM-planned calls with the executor log prepends only
planned entries whose tool name does not already occur in the executed log;
the merged list is those entries followed by the executed log, every
prepended entry has status "planned", and no executed entry does. -/
theorem C10_merge_planned_calls {F : Type} (g d : F → Except Str Str)
    (names : List Str) (plan : List Str) (file : Option F) :
    ∃ pre,
      mergeToolCalls (names.map mkPlanned)
          (execute_plan (TOOL_REGISTRY g d) plan file).2 =
        pre ++ (execute_plan (TOOL_REGISTRY g d) plan file).2 ∧
      (∀ p ∈ pre, p.status = chars "planned" ∧
        p.tool_name ∉
          ((execute_plan (TOOL_REGISTRY g d) plan file).2).map ToolCallRec.tool_name) ∧
      (∀ r ∈ (execute_plan (TOOL_REGISTRY g d) plan file).2,
        r.status ≠ chars "planned") := by
  have hnotplanned : ∀ r ∈ (execute_plan (TOOL_REGISTRY g d) plan file).2,
      r.status ≠ chars "planned" := by
    intro r hr
    have hlog : (execute_plan (TOOL_REGISTRY g d) plan file).2 =
        plan.map (fun s => (execStep (TOOL_REGISTRY g d) file s).1) :=
      executePlanGo_snd (TOOL_REGISTRY g d) file plan (chars "")
    rw [hlog] at hr
    obtain ⟨s, _, rfl⟩ := List.mem_map.mp hr
    rcases execStep_status (TOOL_REGISTRY g d) file s with hs | hs | hs <;>
      rw [hs] <;> decide
  cases names with
  | nil =>
    refine ⟨[], ?_, ?_, hnotplanned⟩
    · simp [mergeToolCalls]
    · intro p hp
      exact absurd hp (List.not_mem_nil p)
  | cons n ns =>
    refine ⟨((n :: ns).map mkPlanned).filter
      (fun pt => decide (pt.tool_name ∉
        ((execute_plan (TOOL_REGISTRY g d) plan file).2).map ToolCallRec.tool_name)),
      ?_, ?_, hnotplanned⟩
    · simp [mergeToolCalls]
    · intro p hp
      obtain ⟨hmem, hdec⟩ := List.mem_filter.mp hp
      obtain ⟨n0, _, rfl⟩ := List.mem_map.mp hmem
      exact ⟨rfl, of_decide_eq_true hdec⟩

/-- Witness for C10 with one planned call and an empty executed log. -/
theorem C10_witness :
    ∃ pre,
      mergeToolCalls ([GEN_SUMMARY].map mkPlanned)
          (execute_plan (TOOL_REGISTRY (fun _ : Unit => Except.ok [])
            (fun _ => Except.ok [])) [] none).2 =
        pre ++ (execute_plan (TOOL_REGISTRY (fun _ : Unit => Except.ok [])
          (fun _ => Except.ok [])) [] none).2 ∧
      (∀ p ∈ pre, p.status = chars "planned" ∧
        p.tool_name ∉
          ((execute_plan (TOOL_REGISTRY (fun _ : Unit => Except.ok [])
            (fun _ => Except.ok [])) [] none).2).map ToolCallRec.tool_name) ∧
      (∀ r ∈ (execute_plan (TOOL_REGISTRY (fun _ : Unit => Except.ok [])
          (fun _ => Except.ok [])) [] none).2,
        r.status ≠ chars "planned") :=
  C10_merge_planned_calls (fun _ : Unit => Except.ok []) (fun _ => Except.ok [])
    [GEN_SUMMARY] [] none

end MultiToolAgent
